import Mathlib

/-!
Travella: the Home page's filter/sort engine, trip accumulator and place loader

A shallow embedding of `react-frontend/src/pages/Home.jsx`.

* A `Place` is the record the page reads: `id`, `name`, `description`, `category`, `price`.
  Prices are exact rationals, ids are natural numbers.
* The two locale-dependent string built-ins the page calls, `String.prototype.toLowerCase`
  and `String.prototype.localeCompare`, are not defined by the page; they are taken as the
  parameter `StringOps`.  What ECMAScript guarantees about them is stated as explicit
  hypotheses (`LowerFixesEmpty`, `CompareRefl`, `ConsistentCompare`) where a theorem needs it.
* `Array.prototype.sort` is embedded as a stable insertion sort driven by the sign of the
  comparator, which is the result ECMAScript prescribes for a consistent comparator.
-/

namespace Travella

/-- A place record as consumed by the page. -/
structure Place where
  id : Nat
  name : String
  description : String
  category : String
  price : ℚ
deriving DecidableEq

/-- The string built-ins the page relies on: `toLowerCase` and `localeCompare`. -/
structure StringOps where
  toLowerCase : String → String
  localeCompare : String → String → Int

/-- ECMAScript: lower-casing the empty string gives the empty string. -/
def LowerFixesEmpty (ops : StringOps) : Prop :=
  ops.toLowerCase "" = ""

/-- A string compares equal to itself. -/
def CompareRefl (ops : StringOps) : Prop :=
  ∀ s, ops.localeCompare s s = 0

/-- ECMAScript's consistent comparator, for `localeCompare`: the order `cmp ≤ 0` is total and
transitive. -/
def ConsistentCompare (ops : StringOps) : Prop :=
  (∀ s t, 0 < ops.localeCompare s t → ops.localeCompare t s ≤ 0) ∧
  (∀ s t u, ops.localeCompare s t ≤ 0 → ops.localeCompare t u ≤ 0 → ops.localeCompare s u ≤ 0)

/-- `String.prototype.includes`: `needle` occurs in `hay` as a contiguous substring. -/
def includes (hay needle : String) : Bool :=
  decide (needle.data <:+: hay.data)

/-- Insertion of `x` in front of a sorted tail: `x` goes before the first element it does not
compare greater than, so it stays ahead of every later element it ties with. -/
def sortInsert {α : Type} (cmp : α → α → ℚ) (x : α) : List α → List α
  | [] => [x]
  | y :: ys => if cmp x y ≤ 0 then x :: y :: ys else y :: sortInsert cmp x ys

/-- `Array.prototype.sort(cmp)`: a stable sort by the sign of the comparator. -/
def arraySort {α : Type} (cmp : α → α → ℚ) : List α → List α
  | [] => []
  | x :: xs => sortInsert cmp x (arraySort cmp xs)

/-- The predicate handed to `places.filter` in `filteredPlaces`. -/
def keepPlace (ops : StringOps) (filterCategory searchTerm : String) (p : Place) : Bool :=
  (filterCategory == "All" || p.category == filterCategory) &&
  (includes (ops.toLowerCase p.name) (ops.toLowerCase searchTerm) ||
    includes (ops.toLowerCase p.description) (ops.toLowerCase searchTerm))

/-- The `price-low` comparator `(a, b) => a.price - b.price`. -/
def cmpPriceLow (a b : Place) : ℚ := a.price - b.price

/-- The `price-high` comparator `(a, b) => b.price - a.price`. -/
def cmpPriceHigh (a b : Place) : ℚ := b.price - a.price

/-- The `name` comparator `(a, b) => a.name.localeCompare(b.name)`. -/
def cmpName (ops : StringOps) (a b : Place) : ℚ := (ops.localeCompare a.name b.name : ℚ)

/-- The three consecutive `if (sortBy === ...) filtered.sort(...)` statements. -/
def applySort (ops : StringOps) (sortBy : String) (filtered : List Place) : List Place :=
  let filtered := if sortBy == "price-low" then arraySort cmpPriceLow filtered else filtered
  let filtered := if sortBy == "price-high" then arraySort cmpPriceHigh filtered else filtered
  let filtered := if sortBy == "name" then arraySort (cmpName ops) filtered else filtered
  filtered

/-- The guards of the three sort statements, in source order. -/
def sortGuards (sortBy : String) : List Bool :=
  [sortBy == "price-low", sortBy == "price-high", sortBy == "name"]

/-- The memoised derived display list `filteredPlaces`. -/
def filteredPlaces (ops : StringOps) (places : List Place)
    (filterCategory searchTerm sortBy : String) : List Place :=
  if places.length == 0 then []
  else applySort ops sortBy (places.filter (keepPlace ops filterCategory searchTerm))

/-- The callback `addToTrip`, as a function of the current trip list. -/
def addToTrip (tripList : List Place) (place : Place) : List Place :=
  if (tripList.find? (fun p => p.id == place.id)).isNone then tripList ++ [place]
  else tripList

/-- The callback `removeFromTrip`, as a function of the current trip list. -/
def removeFromTrip (tripList : List Place) (id : Nat) : List Place :=
  tripList.filter (fun p => p.id != id)

/-- The derived value `totalCost`: `tripList.reduce((sum, p) => sum + p.price, 0)`. -/
def totalCost (tripList : List Place) : ℚ :=
  tripList.foldl (fun sum p => sum + p.price) 0

/-- A user action on the trip list. -/
inductive TripAction where
  | add (place : Place)
  | remove (id : Nat)

/-- One action applied to the trip list. -/
def applyAction (tripList : List Place) : TripAction → List Place
  | .add place => addToTrip tripList place
  | .remove id => removeFromTrip tripList id

/-- The trip list reached from the initial empty list `useState([])` by a run of actions. -/
def runActions (actions : List TripAction) : List Place :=
  actions.foldl applyAction []

/-- The three state slots `loadPlaces` writes. -/
structure LoadState where
  places : List Place
  loadingPlaces : Bool
  error : String
deriving DecidableEq

/-- How `await fetchPlacesByCity(selectedCity)` ends: with the list, or by throwing a value
whose `message` is `none` when the thrown value is nullish or carries no message. -/
inductive FetchOutcome where
  | ok (cityPlaces : List Place)
  | fail (message : Option String)

/-- The expression `err?.message || fallback`. -/
def messageOr (message : Option String) (fallback : String) : String :=
  match message with
  | some m => if m == "" then fallback else m
  | none => fallback

/-- The effect body `loadPlaces`, as the composition of its state writes. -/
def loadPlaces (selectedCity : String) (outcome : FetchOutcome) (s : LoadState) : LoadState :=
  if selectedCity == "" then { s with places := [] }
  else
    let s := { s with loadingPlaces := true }
    let s := { s with error := "" }
    let s :=
      match outcome with
      | .ok cityPlaces => { s with places := cityPlaces }
      | .fail message =>
        let s := { s with error := messageOr message ("Failed to load places for " ++ selectedCity) }
        { s with places := [] }
    { s with loadingPlaces := false }

/-- A concrete `toLowerCase`/`localeCompare` pair: ASCII lower-casing and code-point order. -/
def asciiOps : StringOps where
  toLowerCase := fun s => ⟨s.data.map Char.toLower⟩
  localeCompare := fun s t => if s < t then -1 else if t < s then 1 else 0

/-- The place `Beach` of the scenarios. -/
def beach : Place :=
  { id := 1, name := "Beach", description := "sunny", category := "Outdoor", price := 10 }

/-- The place `Museum` of the scenarios. -/
def museum : Place :=
  { id := 2, name := "Museum", description := "art", category := "Indoor", price := 20 }

/-! ## The sort built-in: permutation, order, stability -/

theorem sortInsert_perm {α : Type} (cmp : α → α → ℚ) (x : α) (l : List α) :
    (sortInsert cmp x l).Perm (x :: l) := by
  induction l with
  | nil => exact List.Perm.refl _
  | cons y ys ih =>
    unfold sortInsert
    split
    · exact List.Perm.refl _
    · exact (List.Perm.cons y ih).trans (List.Perm.swap x y ys)

theorem arraySort_perm {α : Type} (cmp : α → α → ℚ) (l : List α) :
    (arraySort cmp l).Perm l := by
  induction l with
  | nil => exact List.Perm.refl _
  | cons x xs ih =>
    unfold arraySort
    exact (sortInsert_perm cmp x _).trans (List.Perm.cons x ih)

theorem sortInsert_pairwise {α : Type} (cmp : α → α → ℚ)
    (htot : ∀ a b, 0 < cmp a b → cmp b a ≤ 0)
    (htrans : ∀ a b c, cmp a b ≤ 0 → cmp b c ≤ 0 → cmp a c ≤ 0)
    (x : α) (l : List α) (hl : l.Pairwise (fun a b => cmp a b ≤ 0)) :
    (sortInsert cmp x l).Pairwise (fun a b => cmp a b ≤ 0) := by
  induction l with
  | nil => simp [sortInsert]
  | cons y ys ih =>
    have hy : ∀ z ∈ ys, cmp y z ≤ 0 := (List.pairwise_cons.mp hl).1
    have hys := (List.pairwise_cons.mp hl).2
    unfold sortInsert
    split
    · rename_i hxy
      refine List.pairwise_cons.mpr ⟨?_, hl⟩
      intro z hz
      rcases List.mem_cons.mp hz with rfl | hz
      · exact hxy
      · exact htrans _ _ _ hxy (hy z hz)
    · rename_i hxy
      refine List.pairwise_cons.mpr ⟨?_, ih hys⟩
      intro z hz
      rcases List.mem_cons.mp ((sortInsert_perm cmp x ys).mem_iff.mp hz) with rfl | hz
      · exact htot _ _ (lt_of_not_ge hxy)
      · exact hy z hz

theorem arraySort_pairwise {α : Type} (cmp : α → α → ℚ)
    (htot : ∀ a b, 0 < cmp a b → cmp b a ≤ 0)
    (htrans : ∀ a b c, cmp a b ≤ 0 → cmp b c ≤ 0 → cmp a c ≤ 0)
    (l : List α) : (arraySort cmp l).Pairwise (fun a b => cmp a b ≤ 0) := by
  induction l with
  | nil => simp [arraySort]
  | cons x xs ih =>
    unfold arraySort
    exact sortInsert_pairwise cmp htot htrans x _ ih

/-- Inserting `x` leaves the subsequence selected by `c` as it is in `x :: l`, as long as `x`
does not compare greater than a selected element. -/
theorem sortInsert_filter {α : Type} (cmp : α → α → ℚ) (c : α → Bool)
    (hc : ∀ a b, c a = true → c b = true → cmp a b ≤ 0) (x : α) (l : List α) :
    (sortInsert cmp x l).filter c = (x :: l).filter c := by
  induction l with
  | nil => rfl
  | cons y ys ih =>
    unfold sortInsert
    split
    · rfl
    · rename_i hxy
      cases hx : c x with
      | false =>
        have h1 : (sortInsert cmp x ys).filter c = ys.filter c := by
          rw [ih]; simp [List.filter_cons, hx]
        simp [List.filter_cons, hx, h1]
      | true =>
        have hcy : c y = false := by
          cases hy : c y with
          | false => rfl
          | true => exact absurd (hc x y hx hy) hxy
        have h1 : (sortInsert cmp x ys).filter c = x :: ys.filter c := by
          rw [ih]; simp [List.filter_cons, hx]
        simp [List.filter_cons, hx, hcy, h1]

/-- Stability of the sort: a class of mutually tying elements keeps its input order. -/
theorem arraySort_filter {α : Type} (cmp : α → α → ℚ) (c : α → Bool)
    (hc : ∀ a b, c a = true → c b = true → cmp a b ≤ 0) (l : List α) :
    (arraySort cmp l).filter c = l.filter c := by
  induction l with
  | nil => rfl
  | cons x xs ih =>
    unfold arraySort
    rw [sortInsert_filter cmp c hc]
    simp [List.filter_cons, ih]

/-! ## The filter/sort engine -/

theorem includes_iff (hay needle : String) :
    includes hay needle = true ↔ ∃ u v : String, hay = u ++ needle ++ v := by
  unfold includes
  rw [decide_eq_true_iff]
  constructor
  · rintro ⟨s, t, h⟩
    refine ⟨⟨s⟩, ⟨t⟩, ?_⟩
    apply String.ext
    simp [String.data_append, h]
  · rintro ⟨u, v, h⟩
    refine ⟨u.data, v.data, ?_⟩
    rw [h]
    simp [String.data_append]

theorem includes_empty (hay : String) : includes hay "" = true := by
  rw [includes_iff]
  refine ⟨"", hay, ?_⟩
  apply String.ext
  simp [String.data_append]

theorem keepPlace_iff (ops : StringOps) (filterCategory searchTerm : String) (p : Place) :
    keepPlace ops filterCategory searchTerm p = true ↔
      (filterCategory = "All" ∨ p.category = filterCategory) ∧
      ((∃ u v : String, ops.toLowerCase p.name = u ++ ops.toLowerCase searchTerm ++ v) ∨
        (∃ u v : String,
          ops.toLowerCase p.description = u ++ ops.toLowerCase searchTerm ++ v)) := by
  unfold keepPlace
  simp only [Bool.and_eq_true, Bool.or_eq_true, beq_iff_eq, includes_iff]

theorem keepPlace_all_empty (ops : StringOps) (he : LowerFixesEmpty ops) (p : Place) :
    keepPlace ops "All" "" p = true := by
  unfold LowerFixesEmpty at he
  unfold keepPlace
  simp [he, includes_empty]

theorem applySort_priceLow (ops : StringOps) (l : List Place) :
    applySort ops "price-low" l = arraySort cmpPriceLow l := by
  simp [applySort]

theorem applySort_priceHigh (ops : StringOps) (l : List Place) :
    applySort ops "price-high" l = arraySort cmpPriceHigh l := by
  simp [applySort]

theorem applySort_name (ops : StringOps) (l : List Place) :
    applySort ops "name" l = arraySort (cmpName ops) l := by
  simp [applySort]

theorem applySort_other (ops : StringOps) (sortBy : String) (l : List Place)
    (h1 : sortBy ≠ "price-low") (h2 : sortBy ≠ "price-high") (h3 : sortBy ≠ "name") :
    applySort ops sortBy l = l := by
  simp [applySort, h1, h2, h3]

theorem applySort_perm (ops : StringOps) (sortBy : String) (l : List Place) :
    (applySort ops sortBy l).Perm l := by
  by_cases h1 : sortBy = "price-low"
  · subst h1; rw [applySort_priceLow]; exact arraySort_perm _ _
  · by_cases h2 : sortBy = "price-high"
    · subst h2; rw [applySort_priceHigh]; exact arraySort_perm _ _
    · by_cases h3 : sortBy = "name"
      · subst h3; rw [applySort_name]; exact arraySort_perm _ _
      · rw [applySort_other ops sortBy l h1 h2 h3]

theorem applySort_nil (ops : StringOps) (sortBy : String) : applySort ops sortBy [] = [] :=
  List.Perm.eq_nil (applySort_perm ops sortBy [])

/-- The early return on an empty list agrees with the general path. -/
theorem filteredPlaces_eq (ops : StringOps) (places : List Place)
    (filterCategory searchTerm sortBy : String) :
    filteredPlaces ops places filterCategory searchTerm sortBy =
      applySort ops sortBy (places.filter (keepPlace ops filterCategory searchTerm)) := by
  unfold filteredPlaces
  cases places with
  | nil => simp [applySort_nil]
  | cons p ps => simp

theorem mem_filteredPlaces (ops : StringOps) (places : List Place)
    (filterCategory searchTerm sortBy : String) (p : Place) :
    p ∈ filteredPlaces ops places filterCategory searchTerm sortBy ↔
      p ∈ places ∧ keepPlace ops filterCategory searchTerm p = true := by
  rw [filteredPlaces_eq, (applySort_perm ops sortBy _).mem_iff, List.mem_filter]

/-! ## The concrete string operations satisfy the built-ins' guarantees -/

theorem asciiOps_lowerFixesEmpty : LowerFixesEmpty asciiOps := by
  unfold LowerFixesEmpty
  decide

theorem asciiOps_compareRefl : CompareRefl asciiOps := by
  intro s
  simp [asciiOps]

theorem asciiOps_compare_nonpos (s t : String) : asciiOps.localeCompare s t ≤ 0 ↔ s ≤ t := by
  show (if s < t then (-1 : Int) else if t < s then 1 else 0) ≤ 0 ↔ s ≤ t
  by_cases h1 : s < t
  · simp [h1, le_of_lt h1]
  · by_cases h2 : t < s
    · rw [if_neg h1, if_pos h2]
      exact iff_of_false (by decide) (not_le.mpr h2)
    · simp [h1, h2, le_of_not_lt h2]

theorem asciiOps_consistent : ConsistentCompare asciiOps := by
  constructor
  · intro s t h
    rw [asciiOps_compare_nonpos]
    by_contra hts
    exact absurd ((asciiOps_compare_nonpos s t).mpr (le_of_not_le hts)) (not_le.mpr h)
  · intro s t u hst htu
    rw [asciiOps_compare_nonpos] at *
    exact le_trans hst htu

/-! ## Ties and order -/

/-- Stability of `output` with respect to `input`: the retained places of every key value
form the same sequence in both, and two retained places with equal keys that occur in this
order in `input` occur in this order in `output`. -/
def TiesKeepOrder {κ : Type} [DecidableEq κ] (key : Place → κ) (keep : Place → Bool)
    (input output : List Place) : Prop :=
  (∀ k, output.filter (fun p => key p == k) = (input.filter keep).filter (fun p => key p == k)) ∧
  (∀ a b, key a = key b → keep a = true → keep b = true → List.Sublist [a, b] input → List.Sublist [a, b] output)

theorem tiesKeepOrder_of_filter {κ : Type} [DecidableEq κ] (key : Place → κ)
    (keep : Place → Bool) (input output : List Place)
    (h : ∀ k, output.filter (fun p => key p == k) =
      (input.filter keep).filter (fun p => key p == k)) :
    TiesKeepOrder key keep input output := by
  refine ⟨h, ?_⟩
  intro a b hab ha hb hsub
  have h1 : ([a, b].filter keep).filter (fun p => key p == key a) = [a, b] := by
    simp [List.filter_cons, ha, hb, hab]
  have h2 : List.Sublist [a, b] (output.filter (fun p => key p == key a)) := by
    rw [h (key a), ← h1]
    exact (hsub.filter keep).filter _
  exact h2.trans (List.filter_sublist _)

theorem arraySort_tiesKeepOrder {κ : Type} [DecidableEq κ] (key : Place → κ)
    (keep : Place → Bool) (cmp : Place → Place → ℚ)
    (hc : ∀ a b, key a = key b → cmp a b ≤ 0) (places : List Place) :
    TiesKeepOrder key keep places (arraySort cmp (places.filter keep)) := by
  apply tiesKeepOrder_of_filter
  intro k
  apply arraySort_filter
  intro a b ha hb
  apply hc
  rw [beq_iff_eq] at ha hb
  rw [ha, hb]

/-! ## Properties of the derived display list -/

/-- C1: a place appears in `filteredPlaces` exactly when it is in the input list and passes the
category test (`filterCategory` is "All" or equals the place's category) and the search test
(the lower-cased search term is a substring of the lower-cased name or of the lower-cased
description); every returned place is an input place; and under a category `C` other than
"All" every returned place has category `C`. -/
theorem filteredPlaces_retains_iff (ops : StringOps) (places : List Place)
    (filterCategory searchTerm sortBy : String) :
    (∀ p, p ∈ places →
      (p ∈ filteredPlaces ops places filterCategory searchTerm sortBy ↔
        (filterCategory = "All" ∨ p.category = filterCategory) ∧
        ((∃ u v : String, ops.toLowerCase p.name = u ++ ops.toLowerCase searchTerm ++ v) ∨
          (∃ u v : String,
            ops.toLowerCase p.description = u ++ ops.toLowerCase searchTerm ++ v)))) ∧
    (∀ p, p ∈ filteredPlaces ops places filterCategory searchTerm sortBy → p ∈ places) ∧
    (filterCategory ≠ "All" →
      ∀ p, p ∈ filteredPlaces ops places filterCategory searchTerm sortBy →
        p.category = filterCategory) := by
  refine ⟨?_, ?_, ?_⟩
  · intro p hp
    rw [mem_filteredPlaces, keepPlace_iff]
    exact and_iff_right hp
  · intro p hp
    exact ((mem_filteredPlaces _ _ _ _ _ _).mp hp).1
  · intro hC p hp
    have hk := ((mem_filteredPlaces _ _ _ _ _ _).mp hp).2
    rw [keepPlace_iff] at hk
    rcases hk.1 with h | h
    · exact absurd h hC
    · exact h

/-- C2: with exact prices, `price-low` gives non-decreasing prices and `price-high`
non-increasing prices; with a consistent `localeCompare`, `name` gives a list ascending under
`localeCompare`; and the scenario [Beach 10, Museum 20], "All", "", `price-high` gives
[Museum, Beach]. -/
theorem filteredPlaces_sorted (ops : StringOps) (places : List Place)
    (filterCategory searchTerm : String) :
    (filteredPlaces ops places filterCategory searchTerm "price-low").Pairwise
      (fun a b => a.price ≤ b.price) ∧
    (filteredPlaces ops places filterCategory searchTerm "price-high").Pairwise
      (fun a b => b.price ≤ a.price) ∧
    (ConsistentCompare ops →
      (filteredPlaces ops places filterCategory searchTerm "name").Pairwise
        (fun a b => ops.localeCompare a.name b.name ≤ 0)) ∧
    (LowerFixesEmpty ops →
      filteredPlaces ops [beach, museum] "All" "" "price-high" = [museum, beach]) := by
  refine ⟨?_, ?_, ?_, ?_⟩
  · rw [filteredPlaces_eq, applySort_priceLow]
    refine (arraySort_pairwise cmpPriceLow ?_ ?_ _).imp ?_
    · intro a b h; unfold cmpPriceLow at *; linarith
    · intro a b c h1 h2; unfold cmpPriceLow at *; linarith
    · intro a b h; unfold cmpPriceLow at h; linarith
  · rw [filteredPlaces_eq, applySort_priceHigh]
    refine (arraySort_pairwise cmpPriceHigh ?_ ?_ _).imp ?_
    · intro a b h; unfold cmpPriceHigh at *; linarith
    · intro a b c h1 h2; unfold cmpPriceHigh at *; linarith
    · intro a b h; unfold cmpPriceHigh at h; linarith
  · intro hc
    rw [filteredPlaces_eq, applySort_name]
    refine (arraySort_pairwise (cmpName ops) ?_ ?_ _).imp ?_
    · intro a b h
      unfold cmpName at *
      exact Int.cast_nonpos.mpr (hc.1 _ _ (Int.cast_pos.mp h))
    · intro a b c h1 h2
      unfold cmpName at *
      exact Int.cast_nonpos.mpr (hc.2 _ _ _ (Int.cast_nonpos.mp h1) (Int.cast_nonpos.mp h2))
    · intro a b h
      unfold cmpName at h
      exact Int.cast_nonpos.mp h
  · intro he
    rw [filteredPlaces_eq, applySort_priceHigh]
    have hf : [beach, museum].filter (keepPlace ops "All" "") = [beach, museum] := by
      simp [List.filter_cons, keepPlace_all_empty ops he]
    rw [hf]
    simp only [arraySort, sortInsert, cmpPriceHigh, beach, museum]
    norm_num

/-- Witness of C2 at the concrete string operations. -/
theorem filteredPlaces_sorted_witness :
    ConsistentCompare asciiOps ∧ LowerFixesEmpty asciiOps ∧
    (filteredPlaces asciiOps [museum, beach] "All" "" "name").Pairwise
      (fun a b => asciiOps.localeCompare a.name b.name ≤ 0) ∧
    filteredPlaces asciiOps [beach, museum] "All" "" "price-high" = [museum, beach] :=
  ⟨asciiOps_consistent, asciiOps_lowerFixesEmpty,
    (filteredPlaces_sorted asciiOps [museum, beach] "All" "").2.2.1 asciiOps_consistent,
    (filteredPlaces_sorted asciiOps [museum, beach] "All" "").2.2.2 asciiOps_lowerFixesEmpty⟩

/-- C3: the sort is stable for each of the three sort keys: retained places with equal price
(for `price-low` and `price-high`) or equal name (for `name`, `localeCompare` comparing a string
equal to itself) keep the relative order they have in the input list. -/
theorem filteredPlaces_stable (ops : StringOps) (places : List Place)
    (filterCategory searchTerm : String) :
    TiesKeepOrder Place.price (keepPlace ops filterCategory searchTerm) places
      (filteredPlaces ops places filterCategory searchTerm "price-low") ∧
    TiesKeepOrder Place.price (keepPlace ops filterCategory searchTerm) places
      (filteredPlaces ops places filterCategory searchTerm "price-high") ∧
    (CompareRefl ops →
      TiesKeepOrder Place.name (keepPlace ops filterCategory searchTerm) places
        (filteredPlaces ops places filterCategory searchTerm "name")) := by
  refine ⟨?_, ?_, ?_⟩
  · rw [filteredPlaces_eq, applySort_priceLow]
    apply arraySort_tiesKeepOrder
    intro a b h
    simp [cmpPriceLow, h]
  · rw [filteredPlaces_eq, applySort_priceHigh]
    apply arraySort_tiesKeepOrder
    intro a b h
    simp [cmpPriceHigh, h]
  · intro hr
    rw [filteredPlaces_eq, applySort_name]
    apply arraySort_tiesKeepOrder
    intro a b h
    simp [cmpName, h, hr b.name]

/-- Witness of C3 at the concrete string operations. -/
theorem filteredPlaces_stable_witness :
    CompareRefl asciiOps ∧
    TiesKeepOrder Place.name (keepPlace asciiOps "All" "") [museum, beach, museum]
      (filteredPlaces asciiOps [museum, beach, museum] "All" "" "name") :=
  ⟨asciiOps_compareRefl,
    (filteredPlaces_stable asciiOps [museum, beach, museum] "All" "").2.2 asciiOps_compareRefl⟩

/-- C4: with `filterCategory` "All" and an empty search term the display list is a permutation
of the input list, namely the input list put through the sort step; lower-casing the empty
string gives the empty string. -/
theorem filteredPlaces_all_empty (ops : StringOps) (he : LowerFixesEmpty ops)
    (places : List Place) (sortBy : String) :
    (filteredPlaces ops places "All" "" sortBy).Perm places ∧
    filteredPlaces ops places "All" "" sortBy = applySort ops sortBy places := by
  have hf : places.filter (keepPlace ops "All" "") = places :=
    List.filter_eq_self.mpr (fun p _ => keepPlace_all_empty ops he p)
  rw [filteredPlaces_eq, hf]
  exact ⟨applySort_perm ops sortBy places, rfl⟩

/-- Witness of C4 at the concrete string operations. -/
theorem filteredPlaces_all_empty_witness :
    LowerFixesEmpty asciiOps ∧
    (filteredPlaces asciiOps [beach, museum] "All" "" "price-high").Perm [beach, museum] ∧
    filteredPlaces asciiOps [beach, museum] "All" "" "price-high" =
      applySort asciiOps "price-high" [beach, museum] :=
  ⟨asciiOps_lowerFixesEmpty,
    filteredPlaces_all_empty asciiOps asciiOps_lowerFixesEmpty [beach, museum] "price-high"⟩

/-- C9: for a `sortBy` other than "price-low", "price-high" and "name" the display list is the
filtered input in input order; and for every `sortBy` at most one of the three sort guards
holds, so the three statements act as one exclusive choice. -/
theorem filteredPlaces_no_sort (ops : StringOps) (places : List Place)
    (filterCategory searchTerm sortBy : String) :
    (sortBy ≠ "price-low" → sortBy ≠ "price-high" → sortBy ≠ "name" →
      filteredPlaces ops places filterCategory searchTerm sortBy =
        places.filter (keepPlace ops filterCategory searchTerm)) ∧
    (sortGuards sortBy).count true ≤ 1 ∧
    filteredPlaces ops places filterCategory searchTerm sortBy =
      (if sortBy = "price-low" then
        arraySort cmpPriceLow (places.filter (keepPlace ops filterCategory searchTerm))
      else if sortBy = "price-high" then
        arraySort cmpPriceHigh (places.filter (keepPlace ops filterCategory searchTerm))
      else if sortBy = "name" then
        arraySort (cmpName ops) (places.filter (keepPlace ops filterCategory searchTerm))
      else places.filter (keepPlace ops filterCategory searchTerm)) := by
  refine ⟨?_, ?_, ?_⟩
  · intro h1 h2 h3
    rw [filteredPlaces_eq, applySort_other ops sortBy _ h1 h2 h3]
  · by_cases h1 : sortBy = "price-low"
    · subst h1; decide
    · by_cases h2 : sortBy = "price-high"
      · subst h2; decide
      · by_cases h3 : sortBy = "name"
        · subst h3; decide
        · simp [sortGuards, h1, h2, h3]
  · rw [filteredPlaces_eq]
    by_cases h1 : sortBy = "price-low"
    · subst h1; rw [applySort_priceLow, if_pos rfl]
    · by_cases h2 : sortBy = "price-high"
      · subst h2; rw [applySort_priceHigh, if_neg h1, if_pos rfl]
      · by_cases h3 : sortBy = "name"
        · subst h3; rw [applySort_name, if_neg h1, if_neg h2, if_pos rfl]
        · rw [applySort_other ops sortBy _ h1 h2 h3, if_neg h1, if_neg h2, if_neg h3]

/-- Witness of C9: the sort key "rating" leaves the filtered list in input order. -/
theorem filteredPlaces_no_sort_witness :
    filteredPlaces asciiOps [museum, beach] "All" "" "rating" =
      [museum, beach].filter (keepPlace asciiOps "All" "") :=
  (filteredPlaces_no_sort asciiOps [museum, beach] "All" "" "rating").1
    (by decide) (by decide) (by decide)

/-! ## The trip accumulator -/

theorem addToTrip_of_absent (tripList : List Place) (place : Place)
    (h : ∀ p, p ∈ tripList → p.id ≠ place.id) : addToTrip tripList place = tripList ++ [place] := by
  unfold addToTrip
  have hn : tripList.find? (fun p => p.id == place.id) = none := by
    rw [List.find?_eq_none]
    intro p hp
    simpa using h p hp
  simp [hn]

theorem addToTrip_of_present (tripList : List Place) (place : Place)
    (h : ∃ p, p ∈ tripList ∧ p.id = place.id) : addToTrip tripList place = tripList := by
  unfold addToTrip
  obtain ⟨p, hp, hid⟩ := h
  have hn : tripList.find? (fun p => p.id == place.id) ≠ none := by
    rw [Ne, List.find?_eq_none]
    intro hall
    exact hall p hp (by simpa using hid)
  cases hf : tripList.find? (fun p => p.id == place.id) with
  | none => exact absurd hf hn
  | some q => simp

theorem removeFromTrip_of_absent (tripList : List Place) (id : Nat)
    (h : ∀ p, p ∈ tripList → p.id ≠ id) : removeFromTrip tripList id = tripList := by
  unfold removeFromTrip
  apply List.filter_eq_self.mpr
  intro p hp
  simpa using h p hp

theorem mem_removeFromTrip (tripList : List Place) (id : Nat) (p : Place) :
    p ∈ removeFromTrip tripList id ↔ p ∈ tripList ∧ p.id ≠ id := by
  unfold removeFromTrip
  simp [List.mem_filter]

theorem addToTrip_nodup (tripList : List Place) (place : Place)
    (h : (tripList.map Place.id).Nodup) : ((addToTrip tripList place).map Place.id).Nodup := by
  by_cases hp : ∃ p, p ∈ tripList ∧ p.id = place.id
  · rw [addToTrip_of_present tripList place hp]
    exact h
  · have ha : ∀ p, p ∈ tripList → p.id ≠ place.id := fun p hm hid => hp ⟨p, hm, hid⟩
    rw [addToTrip_of_absent tripList place ha, List.map_append, List.nodup_append]
    refine ⟨h, List.nodup_singleton _, ?_⟩
    intro a ha1 ha2
    rw [List.mem_map] at ha1
    obtain ⟨p, hm, rfl⟩ := ha1
    simp only [List.map_cons, List.map_nil, List.mem_singleton] at ha2
    exact ha p hm ha2

theorem removeFromTrip_nodup (tripList : List Place) (id : Nat)
    (h : (tripList.map Place.id).Nodup) : ((removeFromTrip tripList id).map Place.id).Nodup := by
  unfold removeFromTrip
  exact h.sublist ((List.filter_sublist tripList).map Place.id)

theorem foldl_applyAction_nodup (actions : List TripAction) (tripList : List Place)
    (h : (tripList.map Place.id).Nodup) :
    ((actions.foldl applyAction tripList).map Place.id).Nodup := by
  induction actions generalizing tripList with
  | nil => exact h
  | cons a rest ih =>
    rw [List.foldl_cons]
    apply ih
    cases a with
    | add place => exact addToTrip_nodup tripList place h
    | remove id => exact removeFromTrip_nodup tripList id h

theorem foldl_price (l : List Place) (init : ℚ) :
    l.foldl (fun sum p => sum + p.price) init = init + (l.map Place.price).sum := by
  induction l generalizing init with
  | nil => simp
  | cons x xs ih => rw [List.foldl_cons, ih, List.map_cons, List.sum_cons, add_assoc]

theorem totalCost_eq_sum (tripList : List Place) :
    totalCost tripList = (tripList.map Place.price).sum := by
  unfold totalCost
  rw [foldl_price, zero_add]

theorem totalCost_removeFromTrip (tripList : List Place) (e : Place)
    (hn : (tripList.map Place.id).Nodup) (he : e ∈ tripList) :
    totalCost (removeFromTrip tripList e.id) = totalCost tripList - e.price := by
  induction tripList with
  | nil => exact absurd he (List.not_mem_nil e)
  | cons x xs ih =>
    rw [List.map_cons, List.nodup_cons] at hn
    have hx : ∀ p, p ∈ xs → p.id ≠ x.id := by
      intro p hp hid
      exact hn.1 (hid ▸ List.mem_map_of_mem Place.id hp)
    rcases List.mem_cons.mp he with rfl | hmem
    · have h1 : removeFromTrip (e :: xs) e.id = xs := by
        have h2 := removeFromTrip_of_absent xs e.id hx
        unfold removeFromTrip at h2 ⊢
        simp [List.filter_cons, h2]
      rw [h1, totalCost_eq_sum, totalCost_eq_sum, List.map_cons, List.sum_cons]
      ring
    · have hne : x.id ≠ e.id := fun hid => hx e hmem hid.symm
      have h1 : removeFromTrip (x :: xs) e.id = x :: removeFromTrip xs e.id := by
        unfold removeFromTrip
        simp [List.filter_cons, hne]
      have h3 := ih hn.2 hmem
      rw [totalCost_eq_sum] at h3
      rw [h1, totalCost_eq_sum, totalCost_eq_sum, List.map_cons, List.sum_cons,
        List.map_cons, List.sum_cons, h3, totalCost_eq_sum]
      ring

/-- C5: `addToTrip` appends the place at the end when no entry has its id and leaves the trip
list unchanged otherwise, so a second `addToTrip` of the same place changes nothing; from the
empty list, adding Beach (price 10) twice gives the one-entry list [Beach] with total 10. -/
theorem addToTrip_spec (tripList : List Place) (place : Place) :
    ((∀ p, p ∈ tripList → p.id ≠ place.id) →
      addToTrip tripList place = tripList ++ [place]) ∧
    ((∃ p, p ∈ tripList ∧ p.id = place.id) → addToTrip tripList place = tripList) ∧
    addToTrip (addToTrip tripList place) place = addToTrip tripList place ∧
    (addToTrip (addToTrip [] beach) beach).length = 1 ∧
    totalCost (addToTrip (addToTrip [] beach) beach) = 10 := by
  refine ⟨addToTrip_of_absent tripList place, addToTrip_of_present tripList place, ?_, ?_, ?_⟩
  · apply addToTrip_of_present
    by_cases hp : ∃ p, p ∈ tripList ∧ p.id = place.id
    · rw [addToTrip_of_present tripList place hp]
      exact hp
    · have ha : ∀ p, p ∈ tripList → p.id ≠ place.id := fun p hm hid => hp ⟨p, hm, hid⟩
      rw [addToTrip_of_absent tripList place ha]
      exact ⟨place, by simp, rfl⟩
  · simp [addToTrip, beach]
  · simp [addToTrip, totalCost, beach]

/-- Witness of C5: Museum is appended after Beach, and Beach is not added a second time. -/
theorem addToTrip_spec_witness :
    addToTrip [beach] museum = [beach] ++ [museum] ∧ addToTrip [beach] beach = [beach] :=
  ⟨(addToTrip_spec [beach] museum).1 (by decide),
    (addToTrip_spec [beach] beach).2.1 ⟨beach, by decide, rfl⟩⟩

/-- C6: the ids of the trip list are pairwise distinct: this holds for the initial empty list,
is preserved by `addToTrip` and by `removeFromTrip`, and so holds after every run of these two
operations from the empty list. -/
theorem tripList_ids_distinct :
    (([] : List Place).map Place.id).Nodup ∧
    (∀ (tripList : List Place) (place : Place), (tripList.map Place.id).Nodup →
      ((addToTrip tripList place).map Place.id).Nodup) ∧
    (∀ (tripList : List Place) (id : Nat), (tripList.map Place.id).Nodup →
      ((removeFromTrip tripList id).map Place.id).Nodup) ∧
    (∀ actions : List TripAction, ((runActions actions).map Place.id).Nodup) := by
  refine ⟨List.nodup_nil, addToTrip_nodup, removeFromTrip_nodup, ?_⟩
  intro actions
  exact foldl_applyAction_nodup actions [] List.nodup_nil

/-- C7: `removeFromTrip id` leaves no entry with that id, keeps the remaining entries in their
original order (the result is a subsequence of the trip list holding every entry of another
id as often as before), and returns the trip list itself when no entry has the id. -/
theorem removeFromTrip_spec (tripList : List Place) (id : Nat) :
    (∀ p, p ∈ removeFromTrip tripList id → p.id ≠ id) ∧
    List.Sublist (removeFromTrip tripList id) tripList ∧
    (∀ p : Place, p.id ≠ id → (removeFromTrip tripList id).count p = tripList.count p) ∧
    ((∀ p, p ∈ tripList → p.id ≠ id) → removeFromTrip tripList id = tripList) := by
  refine ⟨?_, ?_, ?_, removeFromTrip_of_absent tripList id⟩
  · intro p hp
    exact ((mem_removeFromTrip tripList id p).mp hp).2
  · unfold removeFromTrip
    exact List.filter_sublist tripList
  · intro p hp
    unfold removeFromTrip
    rw [List.count_filter]
    simpa using hp

/-- Witness of C7: removing an absent id from [Beach, Museum] changes nothing. -/
theorem removeFromTrip_spec_witness : removeFromTrip [beach, museum] 7 = [beach, museum] :=
  (removeFromTrip_spec [beach, museum] 7).2.2.2 (by decide)

/-- C8: `totalCost` is the sum of the entries' prices and is 0 for the empty list; adding a
place with a new id raises it by the place's price and adding one with a present id leaves it;
with pairwise distinct ids, removing the id of an entry lowers it by that entry's price, and
removing an absent id leaves it. -/
theorem totalCost_spec (tripList : List Place) :
    totalCost tripList = (tripList.map Place.price).sum ∧
    totalCost [] = 0 ∧
    (∀ place : Place, (∀ p, p ∈ tripList → p.id ≠ place.id) →
      totalCost (addToTrip tripList place) = totalCost tripList + place.price) ∧
    (∀ place : Place, (∃ p, p ∈ tripList ∧ p.id = place.id) →
      totalCost (addToTrip tripList place) = totalCost tripList) ∧
    ((tripList.map Place.id).Nodup → ∀ e, e ∈ tripList →
      totalCost (removeFromTrip tripList e.id) = totalCost tripList - e.price) ∧
    (∀ id : Nat, (∀ p, p ∈ tripList → p.id ≠ id) →
      totalCost (removeFromTrip tripList id) = totalCost tripList) := by
  refine ⟨totalCost_eq_sum tripList, ?_, ?_, ?_, ?_, ?_⟩
  · simp [totalCost]
  · intro place h
    rw [addToTrip_of_absent tripList place h, totalCost_eq_sum, totalCost_eq_sum]
    simp
  · intro place h
    rw [addToTrip_of_present tripList place h]
  · intro hn e he
    exact totalCost_removeFromTrip tripList e hn he
  · intro id h
    rw [removeFromTrip_of_absent tripList id h]

/-- Witness of C8: removing Beach from [Beach, Museum] lowers the total by Beach's price. -/
theorem totalCost_spec_witness :
    totalCost (removeFromTrip [beach, museum] beach.id) =
      totalCost [beach, museum] - beach.price :=
  (totalCost_spec [beach, museum]).2.2.2.2.1 (by decide) beach (by decide)

/-! ## Loading the places of a city -/

/-- C10: for a non-empty `selectedCity`, a failed fetch ends with no places, the loading flag
cleared and the error set to the failure's message when it has a non-empty one and to
"Failed to load places for <selectedCity>" otherwise; a successful fetch ends with the fetched
places, an empty error and the loading flag cleared; for the empty `selectedCity` only the
places are cleared. -/
theorem loadPlaces_spec (s : LoadState) (selectedCity : String) :
    (selectedCity ≠ "" →
      (∀ message : Option String,
        (loadPlaces selectedCity (.fail message) s).places = [] ∧
        (loadPlaces selectedCity (.fail message) s).loadingPlaces = false) ∧
      (∀ m : String, m ≠ "" → (loadPlaces selectedCity (.fail (some m)) s).error = m) ∧
      (loadPlaces selectedCity (.fail (some "")) s).error =
        "Failed to load places for " ++ selectedCity ∧
      (loadPlaces selectedCity (.fail none) s).error =
        "Failed to load places for " ++ selectedCity ∧
      (∀ cityPlaces : List Place,
        loadPlaces selectedCity (.ok cityPlaces) s =
          { places := cityPlaces, loadingPlaces := false, error := "" })) ∧
    (∀ outcome : FetchOutcome,
      loadPlaces "" outcome s =
        { places := [], loadingPlaces := s.loadingPlaces, error := s.error }) := by
  refine ⟨?_, ?_⟩
  · intro hc
    refine ⟨?_, ?_, ?_, ?_, ?_⟩
    · intro message
      simp [loadPlaces, hc]
    · intro m hm
      simp [loadPlaces, hc, messageOr, hm]
    · simp [loadPlaces, hc, messageOr]
    · simp [loadPlaces, hc, messageOr]
    · intro cityPlaces
      simp [loadPlaces, hc]
  · intro outcome
    simp [loadPlaces]

/-- Witness of C10: a failure without a message while loading "Baku". -/
theorem loadPlaces_spec_witness :
    (loadPlaces "Baku" (.fail none) ⟨[beach], false, "stale"⟩).error =
      "Failed to load places for " ++ "Baku" :=
  ((loadPlaces_spec ⟨[beach], false, "stale"⟩ "Baku").1 (by decide)).2.2.2.1

end Travella
